import Mathlib

/-!
Verification development for the rfid-db-tool repository (rfid-db-tool.py).

The Python program keeps an ordered list of (identifier, label) records in a
Tk treeview and talks to an embedded device over a serial link using fixed
4-byte big-endian frames.  This file is a shallow embedding of the pure
computational content of that program:

* bytes are modelled as natural numbers below 256, byte strings as List Nat;
* the Tk treeview that backs the record list is modelled as an explicit
  ordered list of records, keyed (as Tk keys items) by the numeric iid;
* the serial link is modelled by passing in the list of byte strings that
  successive read(4) calls return (a short or empty list element models a
  read that timed out before all 4 bytes arrived), and every model function
  returns what the handler writes and the outcome it reaches;
* Python exceptions caught by the handlers are modelled by the corresponding
  early-out result values.

Each definition is translated from the function of the same name in
rfid-db-tool.py, with comments pointing at the translated lines.
-/

/-! ## Configuration constants (App.__init__, lines 64-80) -/

def PACKET_MAX_COUNT : Nat := 32

def COMMAND_PINGPONG : Nat := 0xCD000000
def ANSWER_PINGPONG : Nat := 0xDC000000
def COMMAND_WRITECOUNT : Nat := 0xCD010000
def ANSWER_WRITECOUNT : Nat := 0xDC010000
def COMMAND_WRITEDATA : Nat := 0xCD020000
def ANSWER_WRITEDATA : Nat := 0xDC020000
def COMMAND_READLAST : Nat := 0xCD030000
def ANSWER_READLAST : Nat := 0xDC030000

def DEVICES_COUNT_MAX : Nat := 0xFFFF

/-! ## Byte and hex utilities (struct, bytes) -/

/-- Model of struct.pack with format >I: the four big-endian bytes of a
32-bit unsigned value.  All values packed by the program are below 2^32;
the mod 256 on the leading byte makes the definition total. -/
def pack_be32 (n : Nat) : List Nat :=
  [n / 2 ^ 24 % 256, n / 2 ^ 16 % 256, n / 2 ^ 8 % 256, n % 256]

/-- Model of struct.unpack with format >I: requires exactly four bytes,
returns the big-endian value; any other length raises in Python, modelled
as none. -/
def unpack_be32 : List Nat → Option Nat
  | [b0, b1, b2, b3] => some (((b0 * 256 + b1) * 256 + b2) * 256 + b3)
  | _ => none

/-- Value of one hex digit character, none for a non-hex-digit. -/
def hexDigit? (c : Char) : Option Nat :=
  if '0' ≤ c ∧ c ≤ '9' then some (c.toNat - 48)
  else if 'a' ≤ c ∧ c ≤ 'f' then some (c.toNat - 87)
  else if 'A' ≤ c ∧ c ≤ 'F' then some (c.toNat - 55)
  else none

/-- Python str.rstrip and bytes.fromhex treat these six characters as
ASCII whitespace. -/
def pyWhitespace (c : Char) : Bool :=
  c = ' ' || c = '\t' || c = '\n' || c = '\r' || c = '\x0b' || c = '\x0c'

/-- Pair up hex digit characters into byte values; fails on a stray digit
or a non-digit, like bytes.fromhex does. -/
def hexPairs : List Char → Option (List Nat)
  | [] => some []
  | c1 :: c2 :: rest =>
    match hexDigit? c1, hexDigit? c2, hexPairs rest with
    | some h1, some h2, some bs => some ((h1 * 16 + h2) :: bs)
    | _, _, _ => none
  | [_] => none

/-- Model of bytes.fromhex: ASCII whitespace is ignored, the remaining
characters must be an even number of hex digits. -/
def fromhexL (cs : List Char) : Option (List Nat) :=
  hexPairs (cs.filter (fun c => !pyWhitespace c))

/-- The composition bytes.fromhex then struct.unpack(>I) used by
insert_data_item and tree_confirm_entry: an 8-hex-digit string to its
32-bit value. -/
def parse_idL (cs : List Char) : Option Nat :=
  (fromhexL cs).bind unpack_be32

def parse_id (s : String) : Option Nat := parse_idL s.data

/-- Model of str.rstrip with no argument: drop trailing ASCII whitespace. -/
def rstripL (cs : List Char) : List Char :=
  (cs.reverse.dropWhile pyWhitespace).reverse

def rstrip (s : String) : String := String.mk (rstripL s.data)

/-- Model of str.zfill: left-pad with zero characters to the given width. -/
def zfill (width : Nat) (s : String) : String :=
  String.mk (List.replicate (width - s.data.length) '0' ++ s.data)

/-- Lowercase hex character of a value below 16, as bytes.hex produces. -/
def hexChar (n : Nat) : Char :=
  if n < 10 then Char.ofNat (48 + n) else Char.ofNat (87 + n)

/-- Model of bytes.hex: two lowercase hex digits per byte. -/
def bytes_hex (bs : List Nat) : String :=
  String.mk ((bs.map (fun b => [hexChar (b / 16), hexChar (b % 16)])).flatten)

/-! ## The record store

The Tk treeview rows are modelled as an ordered list of records.  Both
insertion paths of the program pass the value unpacked from the hex string
as the Tk item iid (Tk renders the one-element Python tuple as the bare
number), so the iid field below is that number and is the key on which
Tk rejects duplicate insertions. -/

structure Record where
  iid : Nat
  idHex : String
  label : String
deriving DecidableEq

/-- The list of item keys of a store. -/
def iids (store : List Record) : List Nat :=
  store.map Record.iid

/-- Index of the item with a given iid, as tree.index reports it. -/
def find_index (item : Nat) : List Record → Option Nat
  | [] => none
  | r :: rest =>
    if r.iid == item then some 0 else (find_index item rest).map (· + 1)

/-! ## insert_data_item and load_data_from_file (lines 151-179) -/

/-- Model of line.split(sep, maxsplit=1): the pieces before and after the
first separator, or none when the separator does not occur (in which case
the Python split has a single piece and insert_data_item returns early). -/
def splitFirstL (sep : Char) : List Char → Option (List Char × List Char)
  | [] => none
  | c :: rest =>
    if c = sep then some ([], rest)
    else (splitFirstL sep rest).map (fun p => (c :: p.1, p.2))

/-- Model of insert_data_item: split the line at the first comma, strip
trailing whitespace from both pieces, parse the first as an 8-hex-digit
32-bit value, and append the record; any failure (no comma, bad hex,
wrong byte count, duplicate Tk iid) leaves the store unchanged, matching
the early return and the broad except of the Python code. -/
def insert_data_item (store : List Record) (line : String) : List Record :=
  match splitFirstL ',' line.data with
  | none => store
  | some (p0, p1) =>
    match parse_id (String.mk (rstripL p0)) with
    | none => store
    | some data_id =>
      if store.any (fun r => r.iid == data_id) then store
      else store ++ [⟨data_id, String.mk (rstripL p0), String.mk (rstripL p1)⟩]

/-- Splitter for iterating a text file line by line.  Python text mode
reads with universal newlines: a CR LF pair, a lone CR and a lone LF each
end a line.  The accumulator carries the current line reversed.  For input
that is empty or ends in a line terminator this emits a final empty
pseudo-line that the Python iteration does not produce; insert_data_item
ignores any line without a comma, so the loaded store is identical. -/
def split_lines_go (cur : List Char) : List Char → List (List Char)
  | [] => [cur.reverse]
  | '\r' :: '\n' :: rest => cur.reverse :: split_lines_go [] rest
  | '\r' :: rest => cur.reverse :: split_lines_go [] rest
  | '\n' :: rest => cur.reverse :: split_lines_go [] rest
  | c :: rest => split_lines_go (c :: cur) rest

def split_lines (cs : List Char) : List (List Char) :=
  split_lines_go [] cs

/-- Model of load_data_from_file applied to the given file contents:
insert_data_item on every line.  The Python method starts from the
startup-empty treeview; the store argument makes the fold explicit. -/
def load_data_from_file (contents : String) (store : List Record) : List Record :=
  (split_lines contents.data).foldl (fun st l => insert_data_item st (String.mk l)) store

/-! ## tree_popup_menu_save_handler (lines 254-284) -/

/-- One line of the saved file: str(values[0]).zfill(8), a comma,
str(values[1]), then CR LF (lines 272-275). -/
def save_line (r : Record) : String :=
  zfill 8 r.idHex ++ "," ++ r.label ++ "\r\n"

/-- The full contents written to data.txt by the save loop. -/
def save_contents : List Record → String
  | [] => ""
  | r :: rest => save_line r ++ save_contents rest

inductive SaveResult where
  | tooMuch : SaveResult
  | saved : String → Nat → SaveResult
deriving DecidableEq

/-- Model of tree_popup_menu_save_handler: refuse a store larger than
DEVICES_COUNT_MAX with the Too-much-data error, otherwise write the file
and report the saved line count. -/
def tree_popup_menu_save_handler (store : List Record) : SaveResult :=
  if store.length > DEVICES_COUNT_MAX then SaveResult.tooMuch
  else SaveResult.saved (save_contents store) store.length

/-! ## serial_protocol_check (lines 418-432) -/

/-- Model of serial_protocol_check on an open port: the first component is
the request frame the handler writes, the second is the returned boolean,
true exactly when the bytes produced by the read (at most 4 within the
timeout; a short list models a short read) equal the expected answer
frame.  A short read and a wrong full answer reach the same return False
statement. -/
def serial_protocol_check (answer : List Nat) : List Nat × Bool :=
  (pack_be32 COMMAND_PINGPONG, answer == pack_be32 ANSWER_PINGPONG)

/-! ## read_last_id_handler (lines 345-366) -/

/-- The pyserial read method returns the bytes that arrived (possibly
fewer than requested), never the Python None value, so the membership
test data_id is None on line 359 never succeeds. -/
def read_result_is_none (_bytes_read : List Nat) : Bool := false

/-- Model of read_last_id_handler on an open port: reads is the list of
results of the successive read(4) calls (an exhausted list models an
empty read), default is the default argument.  Mirrors lines 349-366:
compare the first read against the READLAST answer frame, then return
the zero-filled hex of whatever the second read yielded. -/
def read_last_id_handler (reads : List (List Nat)) (default : String) : String :=
  let answer := reads.headD []
  if answer ≠ pack_be32 ANSWER_READLAST then default
  else
    let data_id := (reads.drop 1).headD []
    if read_result_is_none data_id then default
    else zfill 8 (bytes_hex data_id)

/-! ## tree_confirm_entry (lines 434-455) and data_delete (lines 414-416) -/

/-- On line 439 the Python name data_id is bound to the result of
struct.unpack, which is a one-element tuple, not an integer.  The test
data_id is None or data_id == 0 on line 441 compares that tuple with
None and with the integer 0; a tuple is never identical to None and never
equal to an integer in Python, so the test is False for every unpacked
value. -/
def unpack_tuple_is_none_or_eq_zero (_data_id : Nat) : Bool := false

/-- Model of tree_confirm_entry.  The item argument is the Tk iid of the
row being edited (none when adding).  Returns the boolean result of the
Python method together with the store it leaves behind.  The validity
tests mirror line 436; the tuple comparison of line 441 is modelled by
unpack_tuple_is_none_or_eq_zero; tree.index and tree.delete on lines
445-446 run before the insert on line 450, so when that insert raises
(duplicate iid) the method returns False with the row already deleted. -/
def tree_confirm_entry (item : Option Nat) (data_id_hex data_text : String)
    (store : List Record) : Bool × List Record :=
  if data_id_hex = "" ∨ data_id_hex.data.length ≠ 8 ∨ data_text = "" then
    (false, store)
  else
    match parse_id data_id_hex with
    | none => (false, store)
    | some data_id =>
      if unpack_tuple_is_none_or_eq_zero data_id then (false, store)
      else
        match item with
        | none =>
          if store.any (fun r => r.iid == data_id) then (false, store)
          else (true, store ++ [⟨data_id, data_id_hex, data_text⟩])
        | some it =>
          match find_index it store with
          | none => (false, store)
          | some current_index =>
            if (store.eraseIdx current_index).any (fun r => r.iid == data_id) then
              (false, store.eraseIdx current_index)
            else
              (true, (store.eraseIdx current_index).insertIdx current_index
                ⟨data_id, data_id_hex, data_text⟩)

/-- Model of data_delete on a selected item: tree.delete removes the row
with that iid (the handlers only pass an existing focused item; a missing
item is a no-op here, the raise path is never taken by the program). -/
def data_delete (store : List Record) (item : Nat) : List Record :=
  match find_index item store with
  | none => store
  | some k => store.eraseIdx k

/-! ## Frame codec view of the constants -/

/-- Request command word for a subcommand, as the addition on lines
306, 320, 350 and 423 forms it from the command constants. -/
def command_base (sub : Nat) : Nat := 0xCD000000 + sub * 0x10000

/-- Encoding of a request frame: struct.pack of the command word plus the
16-bit parameter, exactly the expression the handlers pack. -/
def encode (sub param : Nat) : List Nat :=
  pack_be32 (command_base sub + param)

/-- Modelled from the spec: the decoding half of the Frame Codec lives on
the device side and is not part of src/ (the Python side only packs
frames); spec section 3 fixes a frame as magic u8, subcommand u8 and a
big-endian u16 parameter. -/
def decode : List Nat → Option (Nat × Nat × Nat)
  | [b0, b1, b2, b3] => some (b0, b1, b2 * 256 + b3)
  | _ => none

theorem command_base_values :
    command_base 0 = COMMAND_PINGPONG ∧ command_base 1 = COMMAND_WRITECOUNT ∧
    command_base 2 = COMMAND_WRITEDATA ∧ command_base 3 = COMMAND_READLAST := by
  decide

/-! ## Claim theorems (first group) -/

/-- C2: for every subcommand below 4 and parameter below 2^16, decoding
the encoded request frame recovers the magic 0xCD, the subcommand and the
parameter. -/
theorem C2_decode_encode (sub param : Nat) (hsub : sub < 4) (hparam : param ≤ 65535) :
    decode (encode sub param) = some (0xCD, sub, param) := by
  simp only [encode, command_base, pack_be32, decode]
  refine congrArg some ?_
  have h1 : (0xCD000000 + sub * 0x10000 + param) / 2 ^ 24 % 256 = 0xCD := by omega
  have h2 : (0xCD000000 + sub * 0x10000 + param) / 2 ^ 16 % 256 = sub := by omega
  have h3 : (0xCD000000 + sub * 0x10000 + param) / 2 ^ 8 % 256 * 256 +
      (0xCD000000 + sub * 0x10000 + param) % 256 = param := by omega
  rw [h1, h2, h3]

theorem C2_decode_encode_witness :
    3 < 4 ∧ (45000 : Nat) ≤ 65535 ∧
    decode (encode 3 45000) = some (0xCD, 3, 45000) :=
  ⟨by decide, by decide, C2_decode_encode 3 45000 (by decide) (by decide)⟩

/-- C3 counterexample: the claim calls the two handshake failure kinds
distinguishable outcomes, but serial_protocol_check returns the same
value, plain False, for a mismatched full answer DC 00 00 01 and for a
short two-byte read DC 00: the outcomes are identical. -/
theorem C3_counterexample :
    (serial_protocol_check [0xDC, 0, 0, 1]).2 = (serial_protocol_check [0xDC, 0]).2 ∧
    (serial_protocol_check [0xDC, 0, 0, 1]).2 = false := by
  decide

/-- C3 amended: serial_protocol_check writes the request frame
CD 00 00 00 and succeeds exactly on the full answer DC 00 00 00; a
differing full answer such as DC 00 00 01 fails and a short read such as
DC 00 fails, but both failures are the same boolean False outcome, not
two distinguishable error kinds. -/
theorem C3_handshake_amended :
    (serial_protocol_check [0xDC, 0, 0, 0]).1 = [0xCD, 0, 0, 0] ∧
    (serial_protocol_check [0xDC, 0, 0, 0]).2 = true ∧
    (serial_protocol_check [0xDC, 0, 0, 1]).2 = false ∧
    (serial_protocol_check [0xDC, 0]).2 = false := by
  decide

/-- C5: at the failing input (add, hex 00000000, non-empty label, empty
store) tree_confirm_entry returns True and inserts the zero-identifier
record, because the zero test of line 441 compares the unpack tuple with
an integer and never fires; the claim (and the intent of that line) says
the operation must fail and leave the store unchanged. -/
theorem C5_zero_id_accepted :
    tree_confirm_entry none "00000000" "x" [] = (true, [⟨0, "00000000", "x"⟩]) := by
  decide

/-- C6: at the failing input (correct READLAST answer frame, then an
identifier read that yields only the two bytes 12 34 before the timeout)
read_last_id_handler returns the zero-filled identifier string 00001234
instead of a timeout outcome, because the None test of line 359 never
fires on a short read. -/
theorem C6_short_read_returns_value :
    read_last_id_handler [[0xDC, 3, 0, 0], [0x12, 0x34]] "" = "00001234" := by
  decide

/-- C10: editing the record with iid 1 and changing its identifier to the
identifier of the existing record with iid 2 returns False, yet the
edited record has already been deleted: the resulting store holds only
the other record, so the original (id, label) pair is lost and the store
is not left unchanged on this error path. -/
theorem C10_edit_loses_record :
    tree_confirm_entry (some 1) "00000002" "c"
        [⟨1, "00000001", "a"⟩, ⟨2, "00000002", "b"⟩]
      = (false, [⟨2, "00000002", "b"⟩]) ∧
    (tree_confirm_entry (some 1) "00000002" "c"
        [⟨1, "00000001", "a"⟩, ⟨2, "00000002", "b"⟩]).2
      ≠ [⟨1, "00000001", "a"⟩, ⟨2, "00000002", "b"⟩] := by
  decide

/-! ## tree_popup_menu_write_handler (lines 286-343)

The while loop of lines 313-335 walks the record list with an index i,
sending at most PACKET_MAX_COUNT records per write-data exchange and
checking the echoed answer after each chunk.  The transport is modelled
by the list of byte strings returned by the successive read(4) calls. -/

/-- State returned by the model of the while loop: the result flag and
result_txt of the Python code, the loop index i at exit (the number of
records whose chunks were fully acknowledged), and the write-data
exchanges performed so far as (parameter, chunk) pairs. -/
structure LoopResult where
  result : Bool
  result_txt : String
  acked : Nat
  sent : List (Nat × List Record)
deriving DecidableEq

/-- Model of the while loop of lines 313-335.  Each iteration takes
current_count = min(PACKET_MAX_COUNT, count - i) records starting at
index i, writes the write-data request and the chunk, reads the answer
and compares it with the expected answer; a mismatch sets result False
with result_txt Unexpected answer and breaks, otherwise i advances by
current_count.  The fuel argument only bounds the iteration count; the
callers pass count + 1, which the loop never exhausts because every
iteration advances i by at least one. -/
def write_loop (children : List Record) (count : Nat) : List (List Nat) →
    List (Nat × List Record) → Nat → Nat → LoopResult
  | _, sent, i, 0 => ⟨true, "", i, sent⟩
  | reads, sent, i, fuel + 1 =>
    if i < count then
      let current := if count - i > PACKET_MAX_COUNT then PACKET_MAX_COUNT else count - i
      let chunk := (children.drop i).take current
      let answer := reads.headD []
      if answer ≠ pack_be32 (ANSWER_WRITEDATA + current) then
        ⟨false, "Unexpected answer", i, sent ++ [(current, chunk)]⟩
      else
        write_loop children count (reads.drop 1) (sent ++ [(current, chunk)]) (i + current) fuel
    else ⟨true, "", i, sent⟩

inductive WriteResult where
  | tooMuch : WriteResult
  | commError : String → Nat → List (Nat × List Record) → WriteResult
  | success : Nat → List (Nat × List Record) → WriteResult
deriving DecidableEq

/-- Model of tree_popup_menu_write_handler on an open port: refuse a
store larger than DEVICES_COUNT_MAX (Too much data, lines 296-299),
send the write-count request and check its echoed answer (lines
306-311, with result_txt left empty on mismatch), then run the chunk
loop; the final messageboxes of lines 340-343 become the success or
commError outcome, the latter carrying result_txt, the loop index and
the exchanges sent. -/
def tree_popup_menu_write_handler (children : List Record)
    (reads : List (List Nat)) : WriteResult :=
  let count := children.length
  if count > DEVICES_COUNT_MAX then WriteResult.tooMuch
  else
    let answer := reads.headD []
    if answer ≠ pack_be32 (ANSWER_WRITECOUNT + count) then WriteResult.commError "" 0 []
    else
      let o := write_loop children count (reads.drop 1) [] 0 (count + 1)
      if o.result then WriteResult.success count o.sent
      else WriteResult.commError o.result_txt o.acked o.sent

/-- The partition of a record list into the chunks the while loop sends:
repeatedly take min(PACKET_MAX_COUNT, remaining) elements.  Defined with
the same fuel pattern as write_loop. -/
def upload_chunks_go {α : Type} : Nat → List α → List (List α)
  | 0, _ => []
  | _ + 1, [] => []
  | fuel + 1, a :: rest =>
    let rem := a :: rest
    let current := if rem.length > PACKET_MAX_COUNT then PACKET_MAX_COUNT else rem.length
    rem.take current :: upload_chunks_go fuel (rem.drop current)

def upload_chunks {α : Type} (l : List α) : List (List α) :=
  upload_chunks_go (l.length + 1) l

/-- The sequence of answer frames a device that acknowledges every chunk
returns during the streaming phase. -/
def chunk_answers (l : List Record) : List (List Nat) :=
  (upload_chunks l).map (fun c => pack_be32 (ANSWER_WRITEDATA + c.length))

/-! ### Chunk partition lemmas -/

/-- The current_count selection of lines 315-318 is the minimum of
PACKET_MAX_COUNT and the remaining count. -/
theorem ite_chunk_eq_min (n : Nat) :
    (if n > PACKET_MAX_COUNT then PACKET_MAX_COUNT else n) = min 32 n := by
  simp only [PACKET_MAX_COUNT]
  split <;> omega

theorem upload_chunks_go_cons {α : Type} (fuel : Nat) (a : α) (rest : List α) :
    upload_chunks_go (fuel + 1) (a :: rest) =
      (a :: rest).take (min 32 (rest.length + 1)) ::
        upload_chunks_go fuel ((a :: rest).drop (min 32 (rest.length + 1))) := by
  simp only [upload_chunks_go, List.length_cons, ite_chunk_eq_min]

theorem write_loop_succ (children : List Record) (count : Nat) (reads : List (List Nat))
    (sent : List (Nat × List Record)) (i fuel : Nat) :
    write_loop children count reads sent i (fuel + 1) =
      if i < count then
        (if reads.headD [] ≠ pack_be32 (ANSWER_WRITEDATA + min 32 (count - i)) then
          ⟨false, "Unexpected answer", i,
            sent ++ [(min 32 (count - i), (children.drop i).take (min 32 (count - i)))]⟩
        else
          write_loop children count (reads.drop 1)
            (sent ++ [(min 32 (count - i), (children.drop i).take (min 32 (count - i)))])
            (i + min 32 (count - i)) fuel)
      else ⟨true, "", i, sent⟩ := by
  simp only [write_loop, ite_chunk_eq_min]

theorem upload_chunks_go_congr {α : Type} :
    ∀ (f1 f2 : Nat) (rem : List α), rem.length ≤ f1 → rem.length ≤ f2 →
      upload_chunks_go f1 rem = upload_chunks_go f2 rem := by
  intro f1
  induction f1 with
  | zero =>
    intro f2 rem h1 _
    have : rem = [] := List.length_eq_zero.mp (Nat.le_zero.mp h1)
    subst this
    cases f2 <;> rfl
  | succ f1 ih =>
    intro f2 rem h1 h2
    cases rem with
    | nil => cases f2 <;> rfl
    | cons a rest =>
      cases f2 with
      | zero => simp at h2
      | succ f2 =>
        rw [upload_chunks_go_cons, upload_chunks_go_cons]
        refine congrArg _ (ih f2 _ ?_ ?_) <;>
          simp only [List.length_drop, List.length_cons] at * <;> omega

theorem upload_chunks_go_flatten {α : Type} :
    ∀ (fuel : Nat) (rem : List α), rem.length ≤ fuel →
      (upload_chunks_go fuel rem).flatten = rem := by
  intro fuel
  induction fuel with
  | zero =>
    intro rem h
    have : rem = [] := List.length_eq_zero.mp (Nat.le_zero.mp h)
    subst this; rfl
  | succ fuel ih =>
    intro rem h
    cases rem with
    | nil => rfl
    | cons a rest =>
      rw [upload_chunks_go_cons, List.flatten_cons]
      rw [ih _ (by simp only [List.length_drop, List.length_cons] at *; omega)]
      exact List.take_append_drop _ _

theorem upload_chunks_go_count {α : Type} :
    ∀ (fuel : Nat) (rem : List α), rem.length ≤ fuel →
      (upload_chunks_go fuel rem).length = (rem.length + 31) / 32 := by
  intro fuel
  induction fuel with
  | zero =>
    intro rem h
    have : rem = [] := List.length_eq_zero.mp (Nat.le_zero.mp h)
    subst this
    simp [upload_chunks_go]
  | succ fuel ih =>
    intro rem h
    cases rem with
    | nil => simp [upload_chunks_go]
    | cons a rest =>
      rw [upload_chunks_go_cons, List.length_cons]
      rw [ih _ (by simp only [List.length_drop, List.length_cons] at *; omega)]
      simp only [List.length_drop, List.length_cons]
      omega

theorem upload_chunks_go_sizes {α : Type} :
    ∀ (fuel : Nat) (rem : List α), rem.length ≤ fuel →
      ∀ c ∈ upload_chunks_go fuel rem, 0 < c.length ∧ c.length ≤ 32 := by
  intro fuel
  induction fuel with
  | zero =>
    intro rem h
    have : rem = [] := List.length_eq_zero.mp (Nat.le_zero.mp h)
    subst this
    intro c hc
    simp [upload_chunks_go] at hc
  | succ fuel ih =>
    intro rem h c hc
    cases rem with
    | nil => simp [upload_chunks_go] at hc
    | cons a rest =>
      rw [upload_chunks_go_cons, List.mem_cons] at hc
      rcases hc with hc | hc
      · subst hc
        simp only [List.length_take, List.length_cons]
        omega
      · exact ih _ (by simp only [List.length_drop, List.length_cons] at *; omega) c hc

/-- Unfolding of upload_chunks on a non-empty list, with the tail call
re-expressed through upload_chunks itself. -/
theorem upload_chunks_cons_eq {α : Type} (rem : List α) (hne : rem ≠ []) :
    upload_chunks rem =
      rem.take (min 32 rem.length) :: upload_chunks (rem.drop (min 32 rem.length)) := by
  cases rem with
  | nil => exact absurd rfl hne
  | cons a rest =>
    show upload_chunks_go (rest.length + 1 + 1) (a :: rest) = _
    rw [upload_chunks_go_cons]
    simp only [List.length_cons]
    refine congrArg _ ?_
    refine upload_chunks_go_congr _ _ _ ?_ ?_ <;>
      simp only [List.length_drop, List.length_cons] <;> omega

/-! ### The streaming loop sends exactly the chunk partition -/

theorem write_loop_ok :
    ∀ (fuel : Nat) (children : List Record) (i : Nat) (sent : List (Nat × List Record)),
      i ≤ children.length → children.length - i ≤ fuel →
      write_loop children children.length (chunk_answers (children.drop i)) sent i fuel
        = ⟨true, "", children.length,
            sent ++ (upload_chunks (children.drop i)).map (fun c => (c.length, c))⟩ := by
  intro fuel
  induction fuel with
  | zero =>
    intro children i sent hi hfuel
    have hic : i = children.length := by omega
    subst hic
    simp [write_loop, upload_chunks, upload_chunks_go, List.drop_length]
  | succ fuel ih =>
    intro children i sent hi hfuel
    rw [write_loop_succ]
    by_cases hlt : i < children.length
    · rw [if_pos hlt]
      have hrem : (children.drop i).length = children.length - i := List.length_drop i children
      have hremne : children.drop i ≠ [] := by
        intro hnil
        rw [hnil] at hrem
        simp only [List.length_nil] at hrem
        omega
      have hchunks : upload_chunks (children.drop i) =
          (children.drop i).take (min 32 (children.length - i)) ::
            upload_chunks (children.drop (i + min 32 (children.length - i))) := by
        rw [upload_chunks_cons_eq _ hremne, hrem, List.drop_drop]
      have htake_len : ((children.drop i).take (min 32 (children.length - i))).length
          = min 32 (children.length - i) := by
        simp only [List.length_take, hrem]
        omega
      have hanswers : chunk_answers (children.drop i) =
          pack_be32 (ANSWER_WRITEDATA + min 32 (children.length - i)) ::
            chunk_answers (children.drop (i + min 32 (children.length - i))) := by
        simp only [chunk_answers, hchunks, List.map_cons, htake_len]
      rw [hanswers]
      simp only [List.headD_cons, List.drop_one, List.tail_cons]
      rw [if_neg (by simp)]
      rw [ih children (i + min 32 (children.length - i)) _ (by omega) (by omega)]
      rw [hchunks]
      simp only [List.map_cons, htake_len, List.append_assoc, List.singleton_append]
    · rw [if_neg hlt]
      have hic : i = children.length := by omega
      subst hic
      simp [upload_chunks, upload_chunks_go, List.drop_length]

/-- C1: for a store of at most 65535 records and a device that
acknowledges every frame, the write handler succeeds and its write-data
exchanges are exactly the chunk partition of the record list: there are
ceil(count/32) = (count+31)/32 chunks, each chunk is non-empty with at
most 32 records, and their concatenation in exchange order is the record
list itself, so the original order is preserved across chunk
boundaries. -/
theorem C1_upload_partitions (records : List Record) (h : records.length ≤ 65535) :
    tree_popup_menu_write_handler records
        (pack_be32 (ANSWER_WRITECOUNT + records.length) :: chunk_answers records)
      = WriteResult.success records.length
          ((upload_chunks records).map (fun c => (c.length, c)))
    ∧ (upload_chunks records).flatten = records
    ∧ (upload_chunks records).length = (records.length + 31) / 32
    ∧ ∀ c ∈ upload_chunks records, 0 < c.length ∧ c.length ≤ 32 := by
  refine ⟨?_, upload_chunks_go_flatten _ _ (by omega),
    upload_chunks_go_count _ _ (by omega), upload_chunks_go_sizes _ _ (by omega)⟩
  simp only [tree_popup_menu_write_handler]
  rw [if_neg (by simp only [DEVICES_COUNT_MAX]; omega)]
  simp only [List.headD_cons, List.tail_cons, List.drop_one]
  rw [if_neg (by simp)]
  have h0 := write_loop_ok (records.length + 1) records 0 [] (Nat.zero_le _) (by omega)
  rw [List.drop_zero] at h0
  rw [h0]
  simp

/-- A store of 40 records used by the upload scenarios. -/
def records40 : List Record :=
  (List.range 40).map (fun n => ⟨n + 1, "", ""⟩)

theorem C1_upload_partitions_witness :
    records40.length ≤ 65535 ∧
    tree_popup_menu_write_handler records40
        (pack_be32 (ANSWER_WRITECOUNT + records40.length) :: chunk_answers records40)
      = WriteResult.success records40.length
          ((upload_chunks records40).map (fun c => (c.length, c)))
    ∧ (upload_chunks records40).map List.length = [32, 8] :=
  ⟨by decide, (C1_upload_partitions records40 (by decide)).1, by decide⟩

/-- The reads of the C4 scenario: the write-count answer for 40 records,
a correct answer for the first chunk of 32, then an answer carrying
parameter 7 where the second chunk of 8 expects 8. -/
def c4_reads : List (List Nat) :=
  [pack_be32 (ANSWER_WRITECOUNT + 40), pack_be32 (ANSWER_WRITEDATA + 32),
   pack_be32 (ANSWER_WRITEDATA + 7)]

/-- C4: uploading 40 records when the second write-data answer carries
parameter 7 instead of 8 makes the handler stop at that chunk (exactly
the two exchanges of sizes 32 and 8 were performed, nothing after the
mismatch), fail with the Unexpected-answer communication error, and the
loop index carried in the failure outcome, the count of records of fully
acknowledged chunks, is 32. -/
theorem C4_second_chunk_mismatch :
    tree_popup_menu_write_handler records40 c4_reads
      = WriteResult.commError "Unexpected answer" 32
          [(32, records40.take 32), (8, records40.drop 32)] := by
  decide

/-! ## Round-trip of save and load (C7)

tree_popup_menu_save_handler writes one line per record and
load_data_from_file re-parses them.  The claims quantify over stores of
valid records; validity of a stored row is captured by good_rec below:
the hex column is exactly 8 hex digits parsing to the Tk iid (both
insertion paths of the program establish this), and the label survives
the line format (no embedded line terminator, no trailing whitespace
for rstrip to eat).  The counterexample C7_counterexample shows why the
label conditions cannot be dropped. -/

def good_rec (r : Record) : Prop :=
  r.idHex.data.length = 8 ∧
  (∀ c ∈ r.idHex.data, (hexDigit? c).isSome = true) ∧
  parse_id r.idHex = some r.iid ∧
  rstrip r.label = r.label ∧
  (∀ c ∈ r.label.data, c ≠ '\r' ∧ c ≠ '\n')

/-! ### Character-level helper lemmas -/

theorem ws_not_hexDigit {c : Char} (h : pyWhitespace c = true) : hexDigit? c = none := by
  have hc : c = ' ' ∨ c = '\t' ∨ c = '\n' ∨ c = '\r' ∨ c = '\x0b' ∨ c = '\x0c' := by
    simp only [pyWhitespace, Bool.or_eq_true, decide_eq_true_eq] at h
    tauto
  rcases hc with h | h | h | h | h | h <;> subst h <;> decide

theorem hexDigit_not_ws {c : Char} (h : (hexDigit? c).isSome = true) :
    pyWhitespace c = false := by
  cases hw : pyWhitespace c
  · rfl
  · rw [ws_not_hexDigit hw] at h
    simp at h

theorem hexDigit_ne {c d : Char} (h : (hexDigit? c).isSome = true)
    (hd : hexDigit? d = none) : c ≠ d := by
  intro he
  rw [he, hd] at h
  simp at h

theorem dropWhile_false_of_all {p : Char → Bool} :
    ∀ (l : List Char), (∀ c ∈ l, p c = false) → l.dropWhile p = l
  | [], _ => rfl
  | x :: xs, h => by
    rw [List.dropWhile_cons, h x (List.mem_cons_self x xs)]
    simp

theorem rstripL_eq_self {cs : List Char} (h : ∀ c ∈ cs, pyWhitespace c = false) :
    rstripL cs = cs := by
  unfold rstripL
  rw [dropWhile_false_of_all _ (fun c hc => h c (List.mem_reverse.mp hc))]
  exact List.reverse_reverse cs

theorem splitFirstL_append {sep : Char} {a : List Char} (b : List Char)
    (h : ∀ c ∈ a, c ≠ sep) :
    splitFirstL sep (a ++ sep :: b) = some (a, b) := by
  induction a with
  | nil => simp [splitFirstL]
  | cons c a ih =>
    simp only [List.cons_append, splitFirstL, List.append_eq]
    rw [if_neg (h c (List.mem_cons_self c a))]
    rw [ih (fun x hx => h x (List.mem_cons_of_mem _ hx))]
    rfl

/-! ### Line-splitting of the saved text -/

theorem split_lines_go_other (cur : List Char) (c : Char) (rest : List Char)
    (hr : c ≠ '\r') (hn : c ≠ '\n') :
    split_lines_go cur (c :: rest) = split_lines_go (c :: cur) rest := by
  rw [split_lines_go.eq_def]
  split <;> simp_all

theorem split_lines_go_append (body : List Char) :
    ∀ (acc rest : List Char), (∀ c ∈ body, c ≠ '\r' ∧ c ≠ '\n') →
      split_lines_go acc (body ++ '\r' :: '\n' :: rest) =
        (acc.reverse ++ body) :: split_lines_go [] rest := by
  induction body with
  | nil =>
    intro acc rest _
    simp [split_lines_go]
  | cons c body ih =>
    intro acc rest h
    have hc := h c (List.mem_cons_self c body)
    rw [List.cons_append, split_lines_go_other _ _ _ hc.1 hc.2]
    rw [ih _ _ (fun x hx => h x (List.mem_cons_of_mem _ hx))]
    simp

/-! ### Re-parsing one saved line -/

theorem insert_data_item_line (r : Record) (hg : good_rec r) (acc : List Record)
    (hni : (acc.any (fun x => x.iid == r.iid)) = false) :
    insert_data_item acc (String.mk (r.idHex.data ++ ',' :: r.label.data)) = acc ++ [r] := by
  obtain ⟨_, hhex, hparse, hlabel, _⟩ := hg
  have hd : (String.mk (r.idHex.data ++ ',' :: r.label.data)).data
      = r.idHex.data ++ ',' :: r.label.data := rfl
  have h0 : splitFirstL ',' (r.idHex.data ++ ',' :: r.label.data)
      = some (r.idHex.data, r.label.data) :=
    splitFirstL_append _ (fun c hc => hexDigit_ne (hhex c hc) (by decide))
  have h1 : rstripL r.idHex.data = r.idHex.data :=
    rstripL_eq_self (fun c hc => hexDigit_not_ws (hhex c hc))
  have h2 : String.mk (rstripL r.label.data) = r.label := hlabel
  have h3 : String.mk r.idHex.data = r.idHex := rfl
  have h4 : (⟨r.iid, r.idHex, r.label⟩ : Record) = r := rfl
  simp only [insert_data_item, hd, h0, h1, h2, h3]
  rw [hparse]
  simp only [hni, Bool.false_eq_true, if_false, h4]

/-! ### The full fold -/

theorem load_of_save_go :
    ∀ (store acc : List Record),
      (∀ r ∈ store, good_rec r) → (iids store).Nodup →
      (∀ r ∈ store, (acc.any (fun x => x.iid == r.iid)) = false) →
      (split_lines_go [] (save_contents store).data).foldl
          (fun st l => insert_data_item st (String.mk l)) acc
        = acc ++ store := by
  intro store
  induction store with
  | nil =>
    intro acc _ _ _
    simp [save_contents, split_lines_go, insert_data_item, splitFirstL]
  | cons r store ih =>
    intro acc hgood hnd hacc
    have hg := hgood r (List.mem_cons_self r store)
    obtain ⟨hlen8, hhex, hparse, hlabel, hterm⟩ := hg
    have hz : zfill 8 r.idHex = r.idHex := by
      unfold zfill
      rw [hlen8]
      rfl
    have hcomma : ("," : String).data = [','] := rfl
    have hcrlf : ("\r\n" : String).data = ['\r', '\n'] := rfl
    have hline : (save_contents (r :: store)).data
        = (r.idHex.data ++ ',' :: r.label.data) ++ '\r' :: '\n' :: (save_contents store).data := by
      show (save_line r ++ save_contents store).data = _
      simp only [save_line, hz, String.data_append, hcomma, hcrlf]
      simp [List.append_assoc]
    have hbody : ∀ c ∈ r.idHex.data ++ ',' :: r.label.data, c ≠ '\r' ∧ c ≠ '\n' := by
      intro c hc
      rcases List.mem_append.mp hc with hc | hc
      · exact ⟨hexDigit_ne (hhex c hc) (by decide), hexDigit_ne (hhex c hc) (by decide)⟩
      · rcases List.mem_cons.mp hc with hc | hc
        · subst hc
          refine ⟨by decide, by decide⟩
        · exact hterm c hc
    simp only [iids, List.map_cons, List.nodup_cons] at hnd
    obtain ⟨hnotmem, hnd'⟩ := hnd
    rw [hline, split_lines_go_append _ _ _ hbody]
    simp only [List.reverse_nil, List.nil_append, List.foldl_cons]
    rw [insert_data_item_line r ⟨hlen8, hhex, hparse, hlabel, hterm⟩ acc
      (hacc r (List.mem_cons_self r store))]
    rw [ih (acc ++ [r]) (fun x hx => hgood x (List.mem_cons_of_mem _ hx)) hnd' ?_]
    · simp
    · intro x hx
      rw [List.any_append, hacc x (List.mem_cons_of_mem _ hx)]
      simp only [List.any_cons, List.any_nil, Bool.false_or, Bool.or_false]
      have hne : r.iid ≠ x.iid := by
        intro he
        exact hnotmem (he ▸ List.mem_map_of_mem Record.iid hx)
      simp [hne]

/-- C7 amended: for every store of valid rows (8-hex-digit identifier
column parsing to the unique iid; label without embedded line
terminators and without trailing whitespace) of at most 65535 records,
the save handler writes the file and reloading that exact text into an
empty store reproduces the store, record for record, hence the same
(id, label) pairs. -/
theorem C7_roundtrip (store : List Record)
    (hgood : ∀ r ∈ store, good_rec r)
    (hnd : (iids store).Nodup)
    (hcount : store.length ≤ 0xFFFF) :
    tree_popup_menu_save_handler store = SaveResult.saved (save_contents store) store.length ∧
    load_data_from_file (save_contents store) [] = store := by
  constructor
  · simp only [tree_popup_menu_save_handler]
    rw [if_neg (by simp only [DEVICES_COUNT_MAX]; omega)]
  · show (split_lines (save_contents store).data).foldl
        (fun st l => insert_data_item st (String.mk l)) [] = store
    rw [show split_lines (save_contents store).data
        = split_lines_go [] (save_contents store).data from rfl]
    rw [load_of_save_go store [] hgood hnd (fun r _ => rfl)]
    exact List.nil_append store

/-- A single-record store whose label carries a trailing space; the
record is valid in the sense of the claim (identifier non-zero, label
non-empty). -/
def c7_store : List Record := [⟨1, "00000001", "a "⟩]

/-- C7 counterexample: saving the store whose one label is the string
a-space and reloading yields the label a: rstrip on load removed the
trailing space, so the reloaded (id, label) pairs differ from the
original store and the round-trip claim fails as stated for valid
records. -/
theorem C7_counterexample :
    load_data_from_file (save_contents c7_store) [] = [⟨1, "00000001", "a"⟩] ∧
    load_data_from_file (save_contents c7_store) [] ≠ c7_store := by
  decide

instance good_rec_decidable (r : Record) : Decidable (good_rec r) := by
  unfold good_rec
  infer_instance

def c7_good_store : List Record :=
  [⟨0xAB, "000000ab", "hello, world"⟩, ⟨0x1234, "00001234", "x y"⟩]

theorem C7_roundtrip_witness :
    (∀ r ∈ c7_good_store, good_rec r) ∧ (iids c7_good_store).Nodup ∧
    c7_good_store.length ≤ 0xFFFF ∧
    load_data_from_file (save_contents c7_good_store) [] = c7_good_store :=
  ⟨by decide, by decide, by decide,
    (C7_roundtrip c7_good_store (by decide) (by decide) (by decide)).2⟩

/-! ## Identifier uniqueness (C8)

Tk rejects an insert whose iid already exists, and both insertion paths
of the program key rows by the unpacked identifier; the mutation
surface of the store is insert_data_item (file load), tree_confirm_entry
(add and edit) and data_delete.  Op below is one such mutation. -/

inductive Op where
  | load (line : String) : Op
  | confirm (item : Option Nat) (idHex : String) (label : String) : Op
  | del (item : Nat) : Op

/-- One user-visible mutation of the treeview store. -/
def apply_op (store : List Record) : Op → List Record
  | Op.load line => insert_data_item store line
  | Op.confirm item idHex label => (tree_confirm_entry item idHex label store).2
  | Op.del item => data_delete store item

/-! ### Helper lemmas about iids -/

theorem mem_iids_any (store : List Record) (x : Nat) :
    (store.any (fun r => r.iid == x)) = true ↔ x ∈ iids store := by
  simp only [List.any_eq_true, beq_iff_eq, iids, List.mem_map]

theorem not_mem_iids_any (store : List Record) (x : Nat) :
    (store.any (fun r => r.iid == x)) = false ↔ x ∉ iids store := by
  rw [← Bool.not_eq_true]
  exact not_congr (mem_iids_any store x)

theorem map_iid_eraseIdx :
    ∀ (store : List Record) (k : Nat), iids (store.eraseIdx k) = (iids store).eraseIdx k := by
  intro store
  induction store with
  | nil => intro k; rfl
  | cons a rest ih =>
    intro k
    cases k with
    | zero => rfl
    | succ k =>
      simp only [List.eraseIdx_cons_succ, iids, List.map_cons]
      exact congrArg _ (ih k)

theorem map_iid_insertIdx :
    ∀ (store : List Record) (k : Nat) (r : Record),
      iids (store.insertIdx k r) = (iids store).insertIdx k r.iid := by
  intro store
  induction store with
  | nil =>
    intro k r
    cases k with
    | zero => rfl
    | succ k => rfl
  | cons a rest ih =>
    intro k r
    cases k with
    | zero => rfl
    | succ k =>
      simp only [List.insertIdx_succ_cons, iids, List.map_cons]
      exact congrArg _ (ih k r)

theorem nodup_append_singleton {l : List Nat} {x : Nat} (hx : x ∉ l) (h : l.Nodup) :
    (l ++ [x]).Nodup := by
  induction l with
  | nil => simp
  | cons a l ih =>
    rw [List.nodup_cons] at h
    rw [List.cons_append, List.nodup_cons]
    refine ⟨?_, ih (fun hm => hx (List.mem_cons_of_mem _ hm)) h.2⟩
    intro hmem
    rcases List.mem_append.mp hmem with hm | hm
    · exact h.1 hm
    · have ha : a = x := by simpa using hm
      subst ha
      exact hx (List.mem_cons_self a l)

theorem nodup_insertIdx :
    ∀ (l : List Nat) (k : Nat) (x : Nat), x ∉ l → l.Nodup → (l.insertIdx k x).Nodup := by
  intro l
  induction l with
  | nil =>
    intro k x _ _
    cases k with
    | zero => simp [List.insertIdx_zero]
    | succ k => simp [List.insertIdx_succ_nil]
  | cons a l ih =>
    intro k x hx hnd
    rw [List.nodup_cons] at hnd
    cases k with
    | zero =>
      rw [List.insertIdx_zero, List.nodup_cons]
      exact ⟨hx, List.nodup_cons.mpr hnd⟩
    | succ k =>
      rw [List.insertIdx_succ_cons, List.nodup_cons]
      constructor
      · by_cases hk : k ≤ l.length
        · rw [List.mem_insertIdx hk]
          rintro (he | hm)
          · exact hx (by rw [← he]; exact List.mem_cons_self a l)
          · exact hnd.1 hm
        · rw [List.insertIdx_of_length_lt l x k (by omega)]
          exact hnd.1
      · exact ih k x (fun hm => hx (List.mem_cons_of_mem _ hm)) hnd.2

theorem nodup_not_mem_eraseIdx :
    ∀ (ns : List Nat) (k : Nat) (x : Nat), ns.Nodup → ns[k]? = some x →
      x ∉ ns.eraseIdx k := by
  intro ns
  induction ns with
  | nil => intro k x _ hk; simp at hk
  | cons n ns ih =>
    intro k x hnd hk
    rw [List.nodup_cons] at hnd
    cases k with
    | zero =>
      simp only [List.getElem?_cons_zero, Option.some.injEq] at hk
      subst hk
      rw [List.eraseIdx_cons_zero]
      exact hnd.1
    | succ k =>
      simp only [List.getElem?_cons_succ] at hk
      rw [List.eraseIdx_cons_succ]
      intro hmem
      rcases List.mem_cons.mp hmem with he | hmem2
      · subst he
        exact hnd.1 (List.getElem?_mem hk)
      · exact ih k x hnd.2 hk hmem2

theorem insertIdx_eraseIdx_set :
    ∀ (l : List Record) (k : Nat) (a : Record), k < l.length →
      (l.eraseIdx k).insertIdx k a = l.set k a := by
  intro l
  induction l with
  | nil => intro k a h; simp at h
  | cons b l ih =>
    intro k a h
    cases k with
    | zero =>
      rw [List.eraseIdx_cons_zero, List.insertIdx_zero, List.set_cons_zero]
    | succ k =>
      rw [List.eraseIdx_cons_succ, List.insertIdx_succ_cons, List.set_cons_succ]
      rw [ih k a (by simpa using h)]

theorem find_index_eq_of_getElem :
    ∀ (store : List Record) (k : Nat) (r : Record), (iids store).Nodup →
      store[k]? = some r → find_index r.iid store = some k := by
  intro store
  induction store with
  | nil => intro k r _ hk; simp at hk
  | cons a rest ih =>
    intro k r hnd hk
    simp only [iids, List.map_cons, List.nodup_cons] at hnd
    cases k with
    | zero =>
      simp only [List.getElem?_cons_zero, Option.some.injEq] at hk
      subst hk
      simp [find_index]
    | succ k =>
      simp only [List.getElem?_cons_succ] at hk
      have hrm : r ∈ rest := List.getElem?_mem hk
      have hne : ¬((a.iid == r.iid) = true) := by
        simp only [beq_iff_eq]
        intro he
        exact hnd.1 (he ▸ List.mem_map_of_mem Record.iid hrm)
      simp only [find_index]
      rw [if_neg hne, ih k r hnd.2 hk]
      rfl

/-! ### Preservation of uniqueness by each operation -/

theorem iids_append_one (store : List Record) (r : Record) :
    iids (store ++ [r]) = iids store ++ [r.iid] := by
  simp [iids]

theorem nodup_insert_data_item (line : String) {store : List Record}
    (h : (iids store).Nodup) : (iids (insert_data_item store line)).Nodup := by
  unfold insert_data_item
  split
  · exact h
  · split
    · exact h
    · split
      · exact h
      · rename_i hany
        rw [iids_append_one]
        exact nodup_append_singleton ((not_mem_iids_any store _).mp (by simpa using hany)) h

theorem nodup_tree_confirm_entry (item : Option Nat) (idHex label : String)
    {store : List Record} (h : (iids store).Nodup) :
    (iids (tree_confirm_entry item idHex label store).2).Nodup := by
  unfold tree_confirm_entry
  split
  · exact h
  · split
    · exact h
    · split
      · exact h
      · split
        · split
          · exact h
          · rename_i hany
            dsimp only
            rw [iids_append_one]
            exact nodup_append_singleton
              ((not_mem_iids_any store _).mp (by simpa using hany)) h
        · split
          · exact h
          · split
            · dsimp only
              rw [map_iid_eraseIdx]
              exact List.Nodup.eraseIdx _ h
            · rename_i hany
              dsimp only
              rw [map_iid_insertIdx, map_iid_eraseIdx]
              refine nodup_insertIdx _ _ _ ?_ (List.Nodup.eraseIdx _ h)
              rw [← map_iid_eraseIdx]
              exact (not_mem_iids_any _ _).mp (by simpa using hany)

theorem nodup_data_delete (item : Nat) {store : List Record}
    (h : (iids store).Nodup) : (iids (data_delete store item)).Nodup := by
  unfold data_delete
  cases hf : find_index item store with
  | none => exact h
  | some k =>
    rw [map_iid_eraseIdx]
    exact h.eraseIdx k

theorem nodup_apply_ops (ops : List Op) :
    ∀ store, (iids store).Nodup → (iids (ops.foldl apply_op store)).Nodup := by
  induction ops with
  | nil => intro store h; exact h
  | cons op ops ih =>
    intro store h
    rw [List.foldl_cons]
    refine ih _ ?_
    cases op with
    | load line => exact nodup_insert_data_item line h
    | confirm item idHex label => exact nodup_tree_confirm_entry item idHex label h
    | del item => exact nodup_data_delete item h

/-! ### The remaining two parts of C8 -/

theorem confirm_duplicate_add {store : List Record} (idHex label : String) {dataId : Nat}
    (hp : parse_id idHex = some dataId) (hmem : dataId ∈ iids store) :
    tree_confirm_entry none idHex label store = (false, store) := by
  unfold tree_confirm_entry
  by_cases h0 : idHex = "" ∨ idHex.data.length ≠ 8 ∨ label = ""
  · rw [if_pos h0]
  · rw [if_neg h0]
    split
    · rfl
    · rename_i d heq
      rw [hp] at heq
      injection heq with hd
      subst hd
      rw [if_neg (by simp [unpack_tuple_is_none_or_eq_zero])]
      dsimp only
      rw [if_pos ((mem_iids_any store dataId).mpr hmem)]

theorem confirm_edit_same_id {store : List Record} {k : Nat} {r : Record}
    (idHex label : String)
    (hnd : (iids store).Nodup) (hk : store[k]? = some r)
    (hp : parse_id idHex = some r.iid)
    (h8 : idHex.data.length = 8) (hlbl : label ≠ "") :
    tree_confirm_entry (some r.iid) idHex label store
      = (true, store.set k ⟨r.iid, idHex, label⟩) := by
  have h0 : ¬(idHex = "" ∨ idHex.data.length ≠ 8 ∨ label = "") := by
    push_neg
    refine ⟨?_, h8, hlbl⟩
    intro he
    rw [he] at h8
    simp at h8
  have hkid : (iids store)[k]? = some r.iid := by
    simp [iids, List.getElem?_map, hk]
  have hklen : k < store.length := by
    rcases List.getElem?_eq_some_iff.mp hk with ⟨hlt, _⟩
    exact hlt
  have hfind : find_index r.iid store = some k := find_index_eq_of_getElem store k r hnd hk
  have hnm : r.iid ∉ iids (store.eraseIdx k) := by
    rw [map_iid_eraseIdx]
    exact nodup_not_mem_eraseIdx (iids store) k r.iid hnd hkid
  have hany : (store.eraseIdx k).any (fun x => x.iid == r.iid) = false :=
    (not_mem_iids_any _ _).mpr hnm
  unfold tree_confirm_entry
  rw [if_neg h0]
  split
  · rename_i heq
    rw [hp] at heq
    simp at heq
  · rename_i d heq
    rw [hp] at heq
    injection heq with hd
    subst hd
    rw [if_neg (by simp [unpack_tuple_is_none_or_eq_zero])]
    dsimp only
    rw [hfind]
    dsimp only
    rw [if_neg (by simp [hany])]
    rw [insertIdx_eraseIdx_set store k _ hklen]

/-- C8: identifier uniqueness is an invariant: after any sequence of
load, add, edit and delete operations starting from the empty startup
store the iids are pairwise distinct; adding a record whose identifier
already exists returns False with the store unchanged (the Tk insert
raises before anything was removed); and an edit that keeps the
identifier of the record at position k succeeds and re-inserts the
updated record exactly at position k. -/
theorem C8_uniqueness :
    (∀ ops : List Op, (iids (ops.foldl apply_op [])).Nodup) ∧
    (∀ (store : List Record) (idHex label : String) (dataId : Nat),
        parse_id idHex = some dataId → dataId ∈ iids store →
        tree_confirm_entry none idHex label store = (false, store)) ∧
    (∀ (store : List Record) (k : Nat) (r : Record) (idHex label : String),
        (iids store).Nodup → store[k]? = some r → parse_id idHex = some r.iid →
        idHex.data.length = 8 → label ≠ "" →
        tree_confirm_entry (some r.iid) idHex label store
          = (true, store.set k ⟨r.iid, idHex, label⟩)) :=
  ⟨fun ops => nodup_apply_ops ops [] List.nodup_nil,
   fun _ idHex label _ hp hm => confirm_duplicate_add idHex label hp hm,
   fun _ _ _ idHex label hnd hk hp h8 hlbl => confirm_edit_same_id idHex label hnd hk hp h8 hlbl⟩

def c8_ops : List Op :=
  [Op.load "00000001,a", Op.confirm none "00000002" "b", Op.del 1,
   Op.confirm (some 2) "00000002" "c"]

theorem C8_uniqueness_witness :
    (iids (c8_ops.foldl apply_op [])).Nodup ∧
    tree_confirm_entry none "00000002" "x" [⟨2, "00000002", "b"⟩]
      = (false, [⟨2, "00000002", "b"⟩]) ∧
    tree_confirm_entry (some 2) "00000002" "y" [⟨2, "00000002", "b"⟩]
      = (true, [⟨2, "00000002", "y"⟩]) :=
  ⟨C8_uniqueness.1 c8_ops,
   C8_uniqueness.2.1 [⟨2, "00000002", "b"⟩] "00000002" "x" 2 (by decide) (by decide),
   C8_uniqueness.2.2 [⟨2, "00000002", "b"⟩] 0 ⟨2, "00000002", "b"⟩ "00000002" "y"
     (by decide) (by decide) (by decide) (by decide) (by decide)⟩

/-! ## Capacity (C9) -/

/-- A store already holding 65535 records with iids 1..65535. -/
def big_store : List Record := (List.range 65535).map (fun n => ⟨n + 1, "", ""⟩)

/-- C9 counterexample: the claim says every operation that would grow the
store beyond 65535 records is rejected, but tree_confirm_entry performs
no size check at all: adding a fresh record to a store of 65535 records
succeeds and leaves 65536 records. -/
theorem big_store_length : big_store.length = 65535 := by
  simp only [big_store, List.length_map, List.length_range]

theorem big_store_fresh : (big_store.any (fun r => r.iid == 2147483647)) = false := by
  rw [← Bool.not_eq_true, List.any_eq_true]
  rintro ⟨r, hr, hbeq⟩
  simp only [big_store, List.mem_map, List.mem_range] at hr
  obtain ⟨n, hn, rfl⟩ := hr
  simp only [beq_iff_eq] at hbeq
  omega

theorem big_store_confirm_eq :
    tree_confirm_entry none "7FFFFFFF" "x" big_store
      = (true, big_store ++ [⟨2147483647, "7FFFFFFF", "x"⟩]) := by
  unfold tree_confirm_entry
  rw [if_neg (by decide), show parse_id "7FFFFFFF" = some 2147483647 from by decide]
  dsimp only
  rw [if_neg (by simp [unpack_tuple_is_none_or_eq_zero])]
  rw [if_neg (by simp [big_store_fresh])]

theorem C9_counterexample :
    big_store.length = 65535 ∧
    (tree_confirm_entry none "7FFFFFFF" "x" big_store).1 = true ∧
    (tree_confirm_entry none "7FFFFFFF" "x" big_store).2.length = 65536 := by
  refine ⟨big_store_length, ?_, ?_⟩
  · rw [big_store_confirm_eq]
  · rw [big_store_confirm_eq, List.length_append, big_store_length]
    simp only [List.length_cons, List.length_nil]

/-- C9 amended: the store itself is never capped, but both boundary
operations that encode the count into the 16-bit protocol parameter,
saving and writing to the device, reject a store of more than 65535
records with the Too-much-data error before doing anything. -/
theorem C9_capacity (store : List Record) (reads : List (List Nat))
    (h : store.length > 0xFFFF) :
    tree_popup_menu_save_handler store = SaveResult.tooMuch ∧
    tree_popup_menu_write_handler store reads = WriteResult.tooMuch := by
  constructor
  · simp only [tree_popup_menu_save_handler]
    rw [if_pos (by simp only [DEVICES_COUNT_MAX]; omega)]
  · simp only [tree_popup_menu_write_handler]
    rw [if_pos (by simp only [DEVICES_COUNT_MAX]; omega)]

def big_store_66 : List Record := (List.range 65536).map (fun n => ⟨n + 1, "", ""⟩)

theorem C9_capacity_witness :
    big_store_66.length > 0xFFFF ∧
    tree_popup_menu_save_handler big_store_66 = SaveResult.tooMuch ∧
    tree_popup_menu_write_handler big_store_66 [] = WriteResult.tooMuch := by
  have h : big_store_66.length > 0xFFFF := by
    simp only [big_store_66, List.length_map, List.length_range]
    omega
  exact ⟨h, (C9_capacity big_store_66 [] h).1, (C9_capacity big_store_66 [] h).2⟩
